import Mathlib

/-!
Verification of the ReClip clipboard-manager core pipeline
(capture → dedup → privacy-filter → classify → persist → retain/expire).

The Rust sources under `reclip-app/src-tauri/src` are shallowly embedded:

* Rust `String`/`&str` values become `List Char` (`Str`); `String::len` is
  modelled by the UTF-8 byte count `utf8Len` where the source counts bytes.
* SQLite rows of the `clips` table become the `Clip` structure and the table
  a `List Clip`; `DATETIME` columns are modelled as integer timestamps in
  seconds (the stored `YYYY-MM-DD HH:MM:SS` strings compare chronologically,
  so integer comparison is faithful; the day-granularity `date(...)` cutoff
  used by `prune_clips` is modelled as an exact cutoff instant).
* SQL `DELETE ... WHERE p` becomes `List.filter (¬ p)`, `INSERT ... ON
  CONFLICT(hash) DO UPDATE` becomes a find-or-append on the list (the
  `hash` column carries a unique index, expressed as the `hashUnique`
  pairwise-distinctness invariant), `ORDER BY` becomes `List.insertionSort`
  with the corresponding lexicographic comparator, and `LIKE` gets a direct
  recursive matcher (`likeMatch`) with SQLite's ASCII case folding.
* The external regex engine (the Rust `regex` crate) is a parameter
  `compile : Str → Option (Str → Bool)` of the enrichment function, mirroring
  `Regex::new` returning `Result`; `literalCompile` instantiates it on
  metacharacter-free patterns, for which the crate compiles successfully and
  matches exactly on substring occurrence (in particular the empty pattern
  compiles and matches every text).
* Filesystem probing (`Path::exists`) is a parameter `pathExists`.
-/

namespace ReClip

/-- Rust strings are modelled as lists of characters. -/
abbrev Str : Type := List Char

/-- Rust `char::is_ascii_alphabetic`. -/
def isAsciiAlpha (c : Char) : Bool :=
  ('a' ≤ c && c ≤ 'z') || ('A' ≤ c && c ≤ 'Z')

/-- Rust `char::is_ascii_hexdigit`. -/
def isAsciiHexDigit (c : Char) : Bool :=
  ('0' ≤ c && c ≤ '9') || ('a' ≤ c && c ≤ 'f') || ('A' ≤ c && c ≤ 'F')

/-- The opening curly-brace character. -/
def lbrace : Char := Char.ofNat 123

/-- The closing curly-brace character. -/
def rbrace : Char := Char.ofNat 125

/-- The single-quote character, the SQL string-literal delimiter. -/
def squote : Char := Char.ofNat 39

/-- Rust `str::len`: the UTF-8 byte length of a string. -/
def utf8Len (s : Str) : Nat := (s.map Char.utf8Size).sum

/-- Rust `str::trim` (whitespace stripped from both ends). -/
def rustTrim (s : Str) : Str :=
  ((s.dropWhile Char.isWhitespace).reverse.dropWhile Char.isWhitespace).reverse

/-- Lowercasing as used by the privacy filter (`str::to_lowercase`),
modelled characterwise by `Char.toLower` (identical on ASCII, which is all
the rule/application names exercise). -/
def toLowerStr (s : Str) : Str := s.map Char.toLower

/-- Substring test: does `s` contain `p` as a contiguous infix?  Models Rust
`str::contains(&str)`. -/
def containsSub (p : Str) (s : Str) : Bool := decide (p <:+: s)

/-! ## Classifier (`clipboard.rs::detect_tags`) -/

/-- The tag list accumulated by `detect_tags` (clipboard.rs:195-219): the
`#url`, `#email`, `#color`, `#code` tags pushed in source order.  The color
check uses the byte length (`content.len()`), and the email check excludes
only the ASCII space character (`content.contains(" ")`). -/
def detectTagList (content : Str) : List Str :=
  (if "http://".toList.isPrefixOf content || "https://".toList.isPrefixOf content
   then ["#url".toList] else []) ++
  (if content.contains '@' && content.contains '.' && !content.contains ' '
   then ["#email".toList] else []) ++
  (if "#".toList.isPrefixOf content && (utf8Len content == 4 || utf8Len content == 7)
      && (content.drop 1).all isAsciiHexDigit
   then ["#color".toList] else []) ++
  (if content.contains lbrace && content.contains rbrace
      && (content.contains ';' || containsSub "fn ".toList content
          || containsSub "def ".toList content)
   then ["#code".toList] else [])

/-- JSON string quoting of a tag (tags contain no escapes). -/
def quoteJson (t : Str) : Str := '"' :: (t ++ ['"'])

/-- `serde_json::to_string` of a vector of tag strings. -/
def encodeTags (tags : List Str) : Str :=
  '[' :: (List.intercalate ",".toList (tags.map quoteJson) ++ [']'])

/-- `clipboard.rs::detect_tags`: `None` when no tag matched, otherwise the
JSON-encoded tag list. -/
def detect_tags (content : Str) : Option Str :=
  if detectTagList content = [] then none
  else some (encodeTags (detectTagList content))

/-- Tag list prescribed by the spec's classifier section, stated from the
spec's words (with the email clause as amended: no space character, rather
than no whitespace) and string length measured in characters; to be
compared against the source-derived `detectTagList`. -/
def specTagList (content : Str) : List Str :=
  (if "http://".toList.isPrefixOf content || "https://".toList.isPrefixOf content
   then ["#url".toList] else []) ++
  (if content.contains '@' && content.contains '.' && !content.contains ' '
   then ["#email".toList] else []) ++
  (if "#".toList.isPrefixOf content && (content.length == 4 || content.length == 7)
      && (content.drop 1).all isAsciiHexDigit
   then ["#color".toList] else []) ++
  (if content.contains lbrace && content.contains rbrace
      && (content.contains ';' || containsSub "fn ".toList content
          || containsSub "def ".toList content)
   then ["#code".toList] else [])

/-- `clipboard.rs::is_file_path`, with the filesystem probe
(`Path::exists`) abstracted as `pathExists`.  Multi-line content is
rejected, then a drive-letter-rooted Windows path or a root-rooted
(non-`//`) Unix path is accepted iff it exists. -/
def is_file_path (pathExists : Str → Bool) (content : Str) : Bool :=
  let t := rustTrim content
  if t.contains '\n' then false
  else if (match t with
           | c₀ :: c₁ :: c₂ :: _ =>
             isAsciiAlpha c₀ && c₁ == ':' && (c₂ == '\\' || c₂ == '/')
           | _ => false) then pathExists t
  else if (match t with
           | c₀ :: rest =>
             c₀ == '/' && !(match rest with | c₁ :: _ => c₁ == '/' | [] => false)
           | [] => false) then pathExists t
  else false

/-! ## Store rows (`db.rs::Clip`) -/

/-- A row of the `clips` table (db.rs:6-21).  `created_at` is an integer
timestamp in seconds. -/
structure Clip where
  id : Nat
  content : Str
  type_ : Str
  hash : Str
  created_at : Int
  pinned : Bool
  favorite : Bool
  tags : Option Str
  sender_app : Option Str
  sensitive : Bool
  position : Option Int
deriving DecidableEq, Repr

/-- The `UNIQUE` index on `clips.hash` that `ON CONFLICT(hash)` targets:
no two rows share a hash. -/
def hashUnique (table : List Clip) : Prop :=
  table.Pairwise (fun a b => a.hash ≠ b.hash)

/-! ## Upsert (`db.rs::insert_clip_with_sensitive`, `db.rs::insert_clip`) -/

/-- `db.rs::insert_clip_with_sensitive` (db.rs:323-337):
`INSERT INTO clips (content, type, hash, tags, sensitive) VALUES (...)
ON CONFLICT(hash) DO UPDATE SET created_at = CURRENT_TIMESTAMP RETURNING id`.
On conflict only `created_at` is refreshed and the existing row's id is
returned; otherwise a fresh row is appended (remaining columns take their
schema defaults: `pinned`/`favorite` 0, `created_at` the current time,
`sender_app`/`position` NULL) and its id returned.  `now` is the current
timestamp and `nextId` the rowid SQLite would assign. -/
def insert_clip_with_sensitive (now : Int) (nextId : Nat) (content ty hash : Str)
    (tags : Option Str) (sensitive : Bool) (table : List Clip) : Nat × List Clip :=
  match table.find? (fun r => r.hash == hash) with
  | some r =>
    (r.id, table.map fun q => if q.hash == hash then { q with created_at := now } else q)
  | none =>
    (nextId,
     table ++ [{ id := nextId, content := content, type_ := ty, hash := hash,
                 created_at := now, pinned := false, favorite := false,
                 tags := tags, sender_app := none, sensitive := sensitive,
                 position := none }])

/-- `db.rs::insert_clip` (db.rs:319-321): delegates with `sensitive = false`. -/
def insert_clip (now : Int) (nextId : Nat) (content ty hash : Str)
    (tags : Option Str) (table : List Clip) : Nat × List Clip :=
  insert_clip_with_sensitive now nextId content ty hash tags false table

/-- One upsert invocation, for stating properties of upsert sequences. -/
structure UpsertOp where
  now : Int
  nextId : Nat
  content : Str
  ty : Str
  hash : Str
  tags : Option Str
  sensitive : Bool

/-- Apply a sequence of upserts left to right. -/
def applyUpserts (ops : List UpsertOp) (table : List Clip) : List Clip :=
  ops.foldl
    (fun t o =>
      (insert_clip_with_sensitive o.now o.nextId o.content o.ty o.hash o.tags o.sensitive t).2)
    table

/-! ## Retention (`db.rs::prune_clips`) -/

/-- The age cutoff `date('now', '-days days')`, modelled as an exact
instant `now - days·86400` (SQLite compares the stored datetime strings at
day granularity; the claims quantify at the level of "older than
`maxAgeDays`"). -/
def pruneCutoff (now days : Int) : Int := now - days * 86400

/-- First deletion of `db.rs::prune_clips` (db.rs:436-439): rows surviving
`DELETE FROM clips WHERE created_at < date('now','-days days') AND
pinned = 0 AND favorite = 0`. -/
def ageSurvivors (now days : Int) (table : List Clip) : List Clip :=
  table.filter fun r =>
    !(decide (r.created_at < pruneCutoff now days) && !r.pinned && !r.favorite)

/-- Ordering used by `ORDER BY created_at DESC`: `a` may precede `b` iff
`b.created_at ≤ a.created_at`. -/
def createdDesc (a b : Clip) : Prop := b.created_at ≤ a.created_at

instance : DecidableRel createdDesc := fun a b => Int.decLe _ _

/-- The ids kept by the subquery `SELECT id FROM clips ORDER BY created_at
DESC LIMIT max_clips` (a negative SQLite `LIMIT` means no limit). -/
def newestIds (maxClips : Int) (table : List Clip) : List Nat :=
  ((table.insertionSort createdDesc).take
    (if maxClips < 0 then table.length else maxClips.toNat)).map (·.id)

/-- `db.rs::prune_clips` (db.rs:433-448): the age deletion followed by
`DELETE FROM clips WHERE id NOT IN (SELECT id FROM clips ORDER BY
created_at DESC LIMIT max_clips) AND pinned = 0 AND favorite = 0`,
evaluated on the intermediate table. -/
def prune_clips (now days maxClips : Int) (table : List Clip) : List Clip :=
  let t₁ := ageSurvivors now days table
  t₁.filter fun r => (newestIds maxClips t₁).contains r.id || r.pinned || r.favorite

/-! ## Sensitive expiry (`db.rs::cleanup_sensitive_clips`) -/

/-- The deletion predicate of `cleanup_sensitive_clips`:
`sensitive = 1 AND created_at < datetime('now', '-maxAge seconds')`. -/
def sensitiveExpired (maxAgeSeconds now : Int) (r : Clip) : Bool :=
  r.sensitive && decide (r.created_at < now - maxAgeSeconds)

/-- `db.rs::cleanup_sensitive_clips` (db.rs:597-605): delete all expired
sensitive rows, returning the surviving table and `rows_affected()`. -/
def cleanup_sensitive_clips (maxAgeSeconds now : Int) (table : List Clip) :
    List Clip × Nat :=
  (table.filter fun r => !sensitiveExpired maxAgeSeconds now r,
   (table.filter fun r => sensitiveExpired maxAgeSeconds now r).length)

/-! ## Query (`db.rs::get_clips`) -/

/-- SQLite `LIKE` folds ASCII uppercase onto lowercase. -/
def asciiLower (c : Char) : Char :=
  if 'A' ≤ c && c ≤ 'Z' then Char.ofNat (c.toNat + 32) else c

/-- SQLite `LIKE` pattern matching: `%` matches any sequence, `_` any single
character, other characters match ASCII-case-insensitively. -/
def likeMatch : Str → Str → Bool
  | [], t => t.isEmpty
  | '%' :: ps, t => t.tails.any fun s => likeMatch ps s
  | '_' :: ps, t =>
      match t with
      | [] => false
      | _ :: ts => likeMatch ps ts
  | p :: ps, t =>
      match t with
      | [] => false
      | c :: ts => (asciiLower p == asciiLower c) && likeMatch ps ts

/-- The search filter of `get_clips` (db.rs:351-355):
`content LIKE '%term%' OR tags LIKE '%term%'` (a NULL `tags` column never
matches). -/
def clipMatchesSearch (term : Str) (r : Clip) : Bool :=
  likeMatch ('%' :: (term ++ ['%'])) r.content ||
    (match r.tags with
     | some t => likeMatch ('%' :: (term ++ ['%'])) t
     | none => false)

/-- `COALESCE(position, 0)`. -/
def posKey (r : Clip) : Int := r.position.getD 0

/-- `favorite` as 0/1 for the comparator. -/
def favN (r : Clip) : Nat := if r.favorite then 1 else 0

/-- `pinned` as 0/1 for the comparator. -/
def pinN (r : Clip) : Nat := if r.pinned then 1 else 0

/-- The comparator of `ORDER BY favorite DESC, pinned DESC,
COALESCE(position, 0) DESC, created_at DESC`: `a` may precede `b`. -/
def clipOrd (a b : Clip) : Prop :=
  favN b < favN a ∨ (favN b = favN a ∧
    (pinN b < pinN a ∨ (pinN b = pinN a ∧
      (posKey b < posKey a ∨ (posKey b = posKey a ∧ b.created_at ≤ a.created_at)))))

instance : DecidableRel clipOrd := fun _ _ => by unfold clipOrd; infer_instance

instance : IsTotal Clip clipOrd := ⟨by intro a b; unfold clipOrd; omega⟩

instance : IsTrans Clip clipOrd := ⟨by intro a b c; unfold clipOrd; omega⟩

/-- `db.rs::get_clips` (db.rs:348-366): optional search filter, the
four-key descending sort, then `LIMIT ? OFFSET ?`.  The search arm splices
the term into the SQL text with `format!` rather than binding it as a
parameter: `WHERE content LIKE '%{term}%' OR tags LIKE '%{term}%'`.  A
term free of the single-quote character stays inside the SQL string
literal, and the prepared query is exactly the `LIKE` filter modelled
below (`some` rows).  A term containing a single quote terminates the
literal and changes the SQL statement itself — an odd number of quotes
fails to prepare, an even number executes a rewritten `WHERE` clause — so
such inputs are outside the intended query and this model returns `none`
for them; theorems about searched queries carry the quote-free side
condition. -/
def get_clips (table : List Clip) (limit offset : Nat) (search : Option Str) :
    Option (List Clip) :=
  match search with
  | none => some (((table.insertionSort clipOrd).drop offset).take limit)
  | some term =>
    if term.contains squote then none
    else
      some ((((table.filter (clipMatchesSearch term)).insertionSort clipOrd).drop
        offset).take limit)

/-! ## Settings and the retention scheduler (`lib.rs`) -/

/-- The flat key/value `settings` table; `db.rs::get_setting`. -/
def getSetting (settings : List (Str × Str)) (key : Str) : Option Str :=
  (settings.find? fun kv => kv.1 == key).map (·.2)

/-- Decimal parse of `str::parse::<u64>` restricted to plain digit strings
(the only shapes the settings store). -/
def parseNat (s : Str) : Option Nat :=
  if s ≠ [] && s.all Char.isDigit then
    some (s.foldl (fun acc c => acc * 10 + (c.toNat - '0'.toNat)) 0)
  else none

/-- `lib.rs::get_sensitive_settings` (lib.rs:209-218): the enabled flag
(default `true`, any stored value other than `"false"` counts as enabled)
and the TTL in seconds (default 30). -/
def get_sensitive_settings (settings : List (Str × Str)) : Bool × Nat :=
  ((match getSetting settings "sensitive_auto_delete".toList with
    | some v => !(v == "false".toList)
    | none => true),
   (match (getSetting settings "sensitive_delete_timer".toList).bind parseNat with
    | some n => n
    | none => 30))

/-- Observable outcome of one tick of the background cleanup loop. -/
structure SchedulerOutput where
  table : List Clip
  removed : Nat
  logged : Bool
deriving DecidableEq, Repr

/-- One tick of the retention scheduler spawned in `lib.rs::run`
(lib.rs:283-297): it calls `cleanup_sensitive_clips(&pool, 60)` with the
literal TTL 60 and logs when the removed count is positive.  The loop body
performs no `get_setting` call, so the `settings` argument (the persisted
key/value state at tick time) is not consulted.  The subsequent
reminder/alarm dispatch of the same loop body touches neither the clips
table nor the settings and is elided. -/
def schedulerTick (settings : List (Str × Str)) (now : Int) (table : List Clip) :
    SchedulerOutput :=
  let r := cleanup_sensitive_clips 60 now table
  { table := r.1, removed := r.2, logged := decide (0 < r.2) }

/-! ## Privacy filter and enrichment (`clipboard.rs::start_clipboard_listener`) -/

/-- A row of the `privacy_rules` table (db.rs:534-540). -/
structure PrivacyRule where
  id : Nat
  rule_type : Str
  value : Str
  is_active : Bool
deriving DecidableEq, Repr

/-- `db.rs::get_privacy_rules`: `SELECT * FROM privacy_rules WHERE
is_active = 1`. -/
def get_privacy_rules (rules : List PrivacyRule) : List PrivacyRule :=
  rules.filter (·.is_active)

/-- The application-ignore test (clipboard.rs:79-88): an `APP_IGNORE` rule
matches when its lowercased value is nonempty and occurs in the lowercased
foreground-application name or window title. -/
def appRuleMatches (appName title : Str) (rule : PrivacyRule) : Bool :=
  rule.rule_type == "APP_IGNORE".toList &&
    (let v := toLowerStr rule.value
     !v.isEmpty &&
       (containsSub v (toLowerStr appName) || containsSub v (toLowerStr title)))

/-- The content-regex test (clipboard.rs:93-103): a `REGEX_MASK` rule
suppresses when its pattern compiles (`Regex::new` returns `Ok`) and the
compiled regex matches the captured text; a pattern that fails to compile
is skipped. -/
def regexSuppresses (compile : Str → Option (Str → Bool)) (text : Str)
    (rule : PrivacyRule) : Bool :=
  rule.rule_type == "REGEX_MASK".toList &&
    (match compile rule.value with
     | some m => m text
     | none => false)

/-- The enrichment decision for a text capture (the async block of
clipboard.rs:70-135): fetch active rules, test app-ignore rules against the
foreground window (skipped entirely when no window information is
available), then content-regex rules against the text; if either group
matches, the capture is suppressed (`none`).  Otherwise the clip type and
tags are computed (`#file` for file paths, `detect_tags` for plain text). -/
def enrichText (compile : Str → Option (Str → Bool)) (pathExists : Str → Bool)
    (rules : List PrivacyRule) (activeWindow : Option (Str × Str)) (text : Str) :
    Option (Str × Option Str) :=
  let active := get_privacy_rules rules
  let appIgnored :=
    match activeWindow with
    | some nt => active.any (appRuleMatches nt.1 nt.2)
    | none => false
  if appIgnored then none
  else if active.any (regexSuppresses compile text) then none
  else
    let fp := is_file_path pathExists text
    let ty := if fp then "file".toList else "text".toList
    let tags := if fp then some (encodeTags ["#file".toList]) else detect_tags text
    some (ty, tags)

/-- Enrichment followed by persistence: on suppression the table is
untouched and no id is emitted; otherwise `insert_clip` runs and the
resulting id is emitted (the `clip-created` event). -/
def enrichPersist (compile : Str → Option (Str → Bool)) (pathExists : Str → Bool)
    (now : Int) (nextId : Nat) (rules : List PrivacyRule)
    (activeWindow : Option (Str × Str)) (text hash : Str) (table : List Clip) :
    List Clip × Option Nat :=
  match enrichText compile pathExists rules activeWindow text with
  | none => (table, none)
  | some tt =>
    let r := insert_clip now nextId text tt.1 hash tt.2 table
    (r.2, some r.1)

/-- Regex metacharacters of the `regex` crate. -/
def regexMeta : List Char :=
  ['\\', '.', '+', '*', '?', '(', ')', '|', '[', ']', lbrace, rbrace, '^', '$']

/-- The external `regex` crate engine on metacharacter-free patterns: such a
pattern always compiles (`Regex::new` returns `Ok`) and its regex matches a
text exactly when the pattern occurs in it as a substring; in particular the
empty pattern compiles and matches every text.  Patterns containing
metacharacters are outside this fragment and map to `none` here; no claim
instantiates the engine on them (theorems about compile failures keep the
engine abstract). -/
def literalCompile (p : Str) : Option (Str → Bool) :=
  if p.all (fun c => !regexMeta.contains c) then
    some (fun text => containsSub p text)
  else none

/-! ## Capture loop (`clipboard.rs::start_clipboard_listener`) -/

/-- The loop-carried state of the capture thread: the single `last_hash`
variable (clipboard.rs:45). -/
structure LoopState where
  lastHash : Str
deriving DecidableEq, Repr

/-- What one poll tick observes: the text channel (`clipboard.get_text()`,
`none` on read failure) and the image channel (`clipboard.get_image()`,
the raw bytes, `none` on read failure). -/
structure TickInput where
  text : Option Str
  image : Option Str
deriving DecidableEq, Repr

/-- What one tick dispatches, plus the successor state. -/
structure TickOutput where
  textDispatched : Option Str
  imageDispatched : Option Str
  state : LoopState
deriving DecidableEq, Repr

/-- One iteration of the capture loop (clipboard.rs:47-191), with the
fingerprint function (`blake3::hash(...).to_string()`) abstracted as
`hashFn`.  Under incognito the tick is skipped entirely.  Otherwise the
text channel is processed first: non-whitespace text whose hash differs
from `last_hash` is dispatched and `last_hash` is updated synchronously in
the loop (clipboard.rs:138).  The image channel is then compared against
the possibly-just-updated `last_hash` (clipboard.rs:146) and on a
difference is dispatched, again overwriting `last_hash` (clipboard.rs:148).
Dispatch is fire-and-forget: the state update does not depend on whether
enrichment later suppresses or persists the capture. -/
def captureTick (hashFn : Str → Str) (incognito : Bool) (st : LoopState)
    (inp : TickInput) : TickOutput :=
  if incognito then { textDispatched := none, imageDispatched := none, state := st }
  else
    let td :=
      match inp.text with
      | some t =>
        if !(rustTrim t).isEmpty then
          if hashFn t != st.lastHash then (some t, hashFn t)
          else ((none : Option Str), st.lastHash)
        else ((none : Option Str), st.lastHash)
      | none => ((none : Option Str), st.lastHash)
    let imd :=
      match inp.image with
      | some b =>
        if hashFn b != td.2 then (some b, hashFn b)
        else ((none : Option Str), td.2)
      | none => ((none : Option Str), td.2)
    { textDispatched := td.1, imageDispatched := imd.1, state := { lastHash := imd.2 } }

/-! ## Concrete fixtures for counterexamples and witnesses -/

/-- A sensitive, pinned clip created at time 0. -/
def clipSensitivePinned : Clip :=
  { id := 1, content := "pw".toList, type_ := "text".toList, hash := "h".toList,
    created_at := 0, pinned := true, favorite := false, tags := none,
    sender_app := none, sensitive := true, position := none }

/-- Settings state with sensitive auto-delete disabled and a 10-second TTL. -/
def settingsDisabled : List (Str × Str) :=
  [("sensitive_auto_delete".toList, "false".toList),
   ("sensitive_delete_timer".toList, "10".toList)]

/-- A non-sensitive clip whose content is the uppercase string `ABC`. -/
def clipABC : Clip :=
  { id := 1, content := "ABC".toList, type_ := "text".toList, hash := "h1".toList,
    created_at := 5, pinned := false, favorite := false, tags := none,
    sender_app := none, sensitive := false, position := none }

/-- A clip with a chosen id and favorite flag, all other attributes equal
across ids (hashes differ so the rows are distinct). -/
def clipFav (i : Nat) (fav : Bool) : Clip :=
  { id := i, content := "c".toList, type_ := "text".toList,
    hash := [Char.ofNat (48 + i)], created_at := 5, pinned := false,
    favorite := fav, tags := none, sender_app := none, sensitive := false,
    position := none }

/-- An active content-regex rule whose pattern is the empty string. -/
def emptyRegexRule : PrivacyRule :=
  { id := 1, rule_type := "REGEX_MASK".toList, value := [], is_active := true }

/-- An active application-ignore rule whose value is the empty string. -/
def emptyAppRule : PrivacyRule :=
  { id := 2, rule_type := "APP_IGNORE".toList, value := [], is_active := true }

/-- A text that contains a tab character (whitespace) but no space, and an
email-shaped body. -/
def tabEmail : Str := "a@b.c\t".toList

/-! ## C1: per-channel dedup fingerprints -/

/-- C1 is false on the code: the capture loop keeps one `last_hash` shared
by both channels.  On tick 1 the loop dispatches text `a` and then image
`b`, leaving `last_hash` at the image fingerprint; on tick 2 with the
clipboard unchanged, the text candidate's fingerprint equals the last
dispatched text fingerprint, yet it is dispatched again because the image
dispatch overwrote the shared fingerprint.  (The identity function stands
in for the injective blake3 digest.) -/
theorem c1_counterexample :
    (captureTick (fun s => s) false ⟨[]⟩
        ⟨some "a".toList, some "b".toList⟩).textDispatched = some "a".toList
  ∧ (captureTick (fun s => s) false ⟨[]⟩
        ⟨some "a".toList, some "b".toList⟩).imageDispatched = some "b".toList
  ∧ (captureTick (fun s => s) false
        (captureTick (fun s => s) false ⟨[]⟩
          ⟨some "a".toList, some "b".toList⟩).state
        ⟨some "a".toList, some "b".toList⟩).textDispatched = some "a".toList := by
  decide

/-- C1 as amended: the capture loop keeps a single last-seen fingerprint
shared by both channels.  On a non-incognito tick, a non-whitespace text
candidate is dispatched iff its fingerprint differs from the shared
fingerprint; the image candidate is then compared against the
possibly-updated value (the text fingerprint when a text was dispatched in
the same tick); and the state after the tick holds the fingerprint of the
last dispatch of the tick (image, else text, else unchanged).  A single
tick may thus dispatch both channels, but a dispatch on either channel
overwrites the fingerprint the other channel is compared against. -/
theorem c1_theorem (hashFn : Str → Str) (st : LoopState) (inp : TickInput) :
    (∀ t, inp.text = some t → (rustTrim t).isEmpty = false →
      ((captureTick hashFn false st inp).textDispatched = some t ↔
        hashFn t ≠ st.lastHash))
  ∧ (∀ b, inp.image = some b →
      ((captureTick hashFn false st inp).imageDispatched = some b ↔
        (match (captureTick hashFn false st inp).textDispatched with
         | some t => hashFn b ≠ hashFn t
         | none => hashFn b ≠ st.lastHash)))
  ∧ ((captureTick hashFn false st inp).state.lastHash =
      (match (captureTick hashFn false st inp).imageDispatched,
             (captureTick hashFn false st inp).textDispatched with
       | some b, _ => hashFn b
       | none, some t => hashFn t
       | none, none => st.lastHash)) := by
  obtain ⟨text, image⟩ := inp
  refine ⟨?_, ?_, ?_⟩
  · intro t ht hw
    subst ht
    cases image <;> simp only [captureTick] <;> split_ifs <;>
      simp_all [bne_iff_ne]
  · intro b hb
    subst hb
    cases text <;> simp only [captureTick] <;> split_ifs <;>
      simp_all [bne_iff_ne]
  · cases text <;> cases image <;> simp only [captureTick] <;> split_ifs <;>
      simp_all [bne_iff_ne]

/-- Witness for `c1_theorem` at a concrete input: with the shared
fingerprint at `x`, fresh text `a` is dispatched. -/
theorem c1_theorem_witness :
    (captureTick (fun s => s) false ⟨"x".toList⟩
        ⟨some "a".toList, none⟩).textDispatched = some "a".toList :=
  ((c1_theorem (fun s => s) ⟨"x".toList⟩ ⟨some "a".toList, none⟩).1
    "a".toList rfl (by decide)).mpr (by decide)

/-! ## C2: retention scheduler and the sensitive-expiry settings -/

/-- C2 is false on the code: with the persisted settings disabling
sensitive auto-delete (and a 10-second TTL), the scheduler tick still
removes a sensitive clip aged 100 seconds — the loop body hardcodes
`cleanup_sensitive_clips(&pool, 60)` and never consults the settings. -/
theorem c2_counterexample :
    (get_sensitive_settings settingsDisabled).1 = false
  ∧ (schedulerTick settingsDisabled 100 [clipSensitivePinned]).table = []
  ∧ (schedulerTick settingsDisabled 100 [clipSensitivePinned]).removed = 1 := by
  decide

/-- C2 as amended: on every tick the scheduler invokes the sensitive-expiry
deletion with the fixed TTL of 60 seconds, unconditionally — the persisted
sensitive auto-delete settings are not consulted, so the outcome is
independent of the settings state — and it emits the observability log
exactly when the removed count is positive. -/
theorem c2_theorem (settings settings₂ : List (Str × Str)) (now : Int)
    (table : List Clip) :
    (schedulerTick settings now table).table = (cleanup_sensitive_clips 60 now table).1
  ∧ (schedulerTick settings now table).removed = (cleanup_sensitive_clips 60 now table).2
  ∧ ((schedulerTick settings now table).logged = true ↔
      0 < (schedulerTick settings now table).removed)
  ∧ schedulerTick settings now table = schedulerTick settings₂ now table := by
  refine ⟨rfl, rfl, ?_, rfl⟩
  simp [schedulerTick]

/-- Witness for `c2_theorem` at a concrete input: the tick outcome with the
auto-delete-disabled settings equals the outcome with empty settings. -/
theorem c2_theorem_witness :
    schedulerTick settingsDisabled 100 [clipSensitivePinned]
      = schedulerTick [] 100 [clipSensitivePinned] :=
  (c2_theorem settingsDisabled [] 100 [clipSensitivePinned]).2.2.2

/-! ## Helper lemmas -/

/-- The per-row update of the conflict branch does not change the hash. -/
theorem conflictUpdate_hash (now : Int) (hash : Str) (q : Clip) :
    (if q.hash == hash then { q with created_at := now } else q).hash = q.hash := by
  split_ifs <;> rfl

/-- The per-row update of the conflict branch does not change the
sensitive flag. -/
theorem conflictUpdate_sensitive (now : Int) (hash : Str) (q : Clip) :
    (if q.hash == hash then { q with created_at := now } else q).sensitive
      = q.sensitive := by
  split_ifs <;> rfl

/-- Under the unique-hash invariant, the row lookup of the upsert finds
exactly the (unique) row carrying the hash. -/
theorem find_row_of_hash (hash : Str) (table : List Clip) (hu : hashUnique table)
    (r₀ : Clip) (hr : r₀ ∈ table) (hh : r₀.hash = hash) :
    table.find? (fun r => r.hash == hash) = some r₀ := by
  induction table with
  | nil => cases hr
  | cons a t ih =>
    rw [hashUnique, List.pairwise_cons] at hu
    rcases List.mem_cons.mp hr with rfl | hr
    · exact List.find?_cons_of_pos _ (by simp [hh])
    · have hne : a.hash ≠ hash := by
        have h := hu.1 r₀ hr; rwa [hh] at h
      rw [List.find?_cons_of_neg _ (by simp [hne])]
      exact ih hu.2 hr

/-- The upsert preserves the unique-hash invariant. -/
theorem insert_preserves_hashUnique (now : Int) (nextId : Nat)
    (content ty hash : Str) (tags : Option Str) (sensitive : Bool)
    (table : List Clip) (hu : hashUnique table) :
    hashUnique
      (insert_clip_with_sensitive now nextId content ty hash tags sensitive table).2 := by
  unfold insert_clip_with_sensitive
  cases hfind : table.find? (fun r => r.hash == hash) with
  | some r =>
    simp only
    rw [hashUnique, List.pairwise_map]
    refine hu.imp ?_
    intro a b hab
    rwa [conflictUpdate_hash, conflictUpdate_hash]
  | none =>
    have hall : ∀ r ∈ table, r.hash ≠ hash := by
      intro r hr
      have h := List.find?_eq_none.mp hfind r hr
      simpa using h
    simp only
    rw [hashUnique, List.pairwise_append]
    refine ⟨hu, List.pairwise_singleton _ _, ?_⟩
    intro a ha b hb
    simp only [List.mem_singleton] at hb
    subst hb
    simpa using hall a ha

/-- Any sequence of upserts preserves the unique-hash invariant. -/
theorem applyUpserts_hashUnique (ops : List UpsertOp) (table : List Clip)
    (hu : hashUnique table) : hashUnique (applyUpserts ops table) := by
  induction ops generalizing table with
  | nil => exact hu
  | cons o ops ih =>
    exact ih _ (insert_preserves_hashUnique o.now o.nextId o.content o.ty o.hash
      o.tags o.sensitive table hu)

/-- Partition of a list's length by a Boolean predicate. -/
theorem length_filter_partition {α : Type _} (p : α → Bool) (l : List α) :
    (l.filter p).length + (l.filter fun a => !p a).length = l.length := by
  induction l with
  | nil => rfl
  | cons a t ih => cases h : p a <;> simp [List.filter_cons, h] <;> omega

/-! ## C3: upsert idempotence per hash -/

/-- C3 confirmed: on any table satisfying the unique-hash invariant (the
`UNIQUE` index backing `ON CONFLICT(hash)`), upserting a hash not yet
present appends exactly one new row (with `created_at` the current time)
and returns the fresh id; upserting an existing hash adds no row, refreshes
that row's `created_at` to the current time, leaves rows with other hashes
unchanged, and returns the existing row's id.  The invariant — at most one
row per hash — is preserved by the upsert and hence by any sequence of
upserts. -/
theorem c3_theorem (now : Int) (nextId : Nat) (content ty hash : Str)
    (tags : Option Str) (sensitive : Bool) (table : List Clip)
    (hu : hashUnique table) :
    ((∀ r ∈ table, r.hash ≠ hash) →
      (insert_clip_with_sensitive now nextId content ty hash tags sensitive table).1
          = nextId
      ∧ (insert_clip_with_sensitive now nextId content ty hash tags sensitive table).2
          = table ++ [{ id := nextId, content := content, type_ := ty, hash := hash,
                        created_at := now, pinned := false, favorite := false,
                        tags := tags, sender_app := none, sensitive := sensitive,
                        position := none }]
      ∧ (insert_clip_with_sensitive now nextId content ty hash tags sensitive
            table).2.length = table.length + 1)
  ∧ (∀ r₀ ∈ table, r₀.hash = hash →
      (insert_clip_with_sensitive now nextId content ty hash tags sensitive table).1
          = r₀.id
      ∧ (insert_clip_with_sensitive now nextId content ty hash tags sensitive
            table).2.length = table.length
      ∧ { r₀ with created_at := now }
          ∈ (insert_clip_with_sensitive now nextId content ty hash tags sensitive table).2
      ∧ ∀ q ∈ table, q.hash ≠ hash →
          q ∈ (insert_clip_with_sensitive now nextId content ty hash tags sensitive table).2)
  ∧ hashUnique
      (insert_clip_with_sensitive now nextId content ty hash tags sensitive table).2
  ∧ (∀ ops : List UpsertOp, hashUnique (applyUpserts ops table)) := by
  refine ⟨?_, ?_, insert_preserves_hashUnique _ _ _ _ _ _ _ _ hu,
    fun ops => applyUpserts_hashUnique ops table hu⟩
  · intro hnone
    have hfind : table.find? (fun r => r.hash == hash) = none := by
      rw [List.find?_eq_none]
      intro r hr
      simpa using hnone r hr
    unfold insert_clip_with_sensitive
    rw [hfind]
    exact ⟨rfl, rfl, by simp⟩
  · intro r₀ hr₀ hh
    have hfind := find_row_of_hash hash table hu r₀ hr₀ hh
    unfold insert_clip_with_sensitive
    rw [hfind]
    refine ⟨rfl, by simp, ?_, ?_⟩
    · exact List.mem_map.mpr ⟨r₀, hr₀, by simp [hh]⟩
    · intro q hq hqne
      refine List.mem_map.mpr ⟨q, hq, ?_⟩
      simp [hqne]

/-- Witness for `c3_theorem`: upserting the hash `h1`, already present on
`clipABC`, returns the existing id 1. -/
theorem c3_theorem_witness :
    (insert_clip_with_sensitive 50 2 "x".toList "text".toList "h1".toList none false
        [clipABC]).1 = 1 := by
  have h := c3_theorem 50 2 "x".toList "text".toList "h1".toList none false [clipABC]
    (by rw [hashUnique]; exact List.pairwise_singleton _ _)
  exact (h.2.1 clipABC (List.mem_singleton_self _) rfl).1

/-! ## C4: prune exempts pinned and favorite items -/

/-- C4 confirmed: `prune_clips` performs the age deletion followed by the
count deletion on the intermediate table.  Every pinned-or-favorite row of
the input survives both deletions regardless of age or position; the result
only contains input rows; the age deletion removes exactly the non-pinned,
non-favorite rows older than the cutoff; and among the age survivors the
count deletion removes exactly the non-pinned, non-favorite rows whose id
is not among the `maxClips` most recent. -/
theorem c4_theorem (now days maxClips : Int) (table : List Clip) :
    (∀ r ∈ table, r.pinned = true ∨ r.favorite = true →
        r ∈ prune_clips now days maxClips table)
  ∧ (∀ r ∈ prune_clips now days maxClips table, r ∈ table)
  ∧ (∀ r, r ∈ ageSurvivors now days table ↔
        r ∈ table ∧ ¬(r.created_at < pruneCutoff now days
          ∧ r.pinned = false ∧ r.favorite = false))
  ∧ (∀ r ∈ table, r.pinned = false → r.favorite = false →
        r.created_at < pruneCutoff now days →
        r ∉ prune_clips now days maxClips table)
  ∧ (∀ r ∈ ageSurvivors now days table, r.pinned = false → r.favorite = false →
        (newestIds maxClips (ageSurvivors now days table)).contains r.id = false →
        r ∉ prune_clips now days maxClips table)
  ∧ (∀ r ∈ ageSurvivors now days table,
        (newestIds maxClips (ageSurvivors now days table)).contains r.id = true →
        r ∈ prune_clips now days maxClips table) := by
  refine ⟨?_, ?_, ?_, ?_, ?_, ?_⟩
  · intro r hr h
    rcases h with hp | hf
    · simp [prune_clips, ageSurvivors, List.mem_filter, hp, hr]
    · simp [prune_clips, ageSurvivors, List.mem_filter, hf, hr]
  · intro r hr
    simp only [prune_clips, ageSurvivors, List.mem_filter] at hr
    exact hr.1.1
  · intro r
    rw [ageSurvivors, List.mem_filter]
    constructor
    · rintro ⟨h1, h2⟩
      refine ⟨h1, ?_⟩
      rintro ⟨hold, hp, hf⟩
      rw [hp, hf] at h2
      simp [hold] at h2
    · rintro ⟨h1, h2⟩
      refine ⟨h1, ?_⟩
      by_cases hp : r.pinned
      · simp [hp]
      · by_cases hf : r.favorite
        · simp [hf]
        · have hold : ¬(r.created_at < pruneCutoff now days) := fun hc =>
            h2 ⟨hc, by simpa using hp, by simpa using hf⟩
          simp [hold]
  · intro r hr hp hf hold hmem
    simp [prune_clips, ageSurvivors, List.mem_filter, hp, hf, hold] at hmem
  · intro r hr hp hf hid hmem
    simp only [prune_clips, List.mem_filter] at hmem
    rw [hid, hp, hf] at hmem
    simp at hmem
  · intro r hr hid
    simp only [prune_clips, List.mem_filter]
    exact ⟨hr, by rw [hid]; rfl⟩

/-- Witness for `c4_theorem`: a pinned clip created at time 0 survives a
prune at time 1000000 with a 1-day age limit. -/
theorem c4_theorem_witness :
    clipSensitivePinned ∈ prune_clips 1000000 1 10 [clipSensitivePinned] :=
  (c4_theorem 1000000 1 10 [clipSensitivePinned]).1 clipSensitivePinned
    (List.mem_singleton_self _) (Or.inl rfl)

/-! ## C5: sensitive expiry overrides pin/favorite -/

/-- C5 confirmed: `cleanup_sensitive_clips` removes exactly the rows with
`sensitive = true` whose age exceeds `maxAgeSeconds` — pinned or favorite
rows included, since the deletion predicate never inspects those flags —
keeps every non-sensitive row and every sufficiently young row, and returns
the number of removed rows. -/
theorem c5_theorem (maxAge now : Int) (table : List Clip) :
    (∀ r ∈ table, r.sensitive = true → r.created_at < now - maxAge →
        r ∉ (cleanup_sensitive_clips maxAge now table).1)
  ∧ (∀ r ∈ table, r.sensitive = false →
        r ∈ (cleanup_sensitive_clips maxAge now table).1)
  ∧ (∀ r ∈ table, ¬(r.created_at < now - maxAge) →
        r ∈ (cleanup_sensitive_clips maxAge now table).1)
  ∧ (∀ r ∈ (cleanup_sensitive_clips maxAge now table).1, r ∈ table)
  ∧ (cleanup_sensitive_clips maxAge now table).1.length
      + (cleanup_sensitive_clips maxAge now table).2 = table.length := by
  refine ⟨?_, ?_, ?_, ?_, ?_⟩
  · intro r hr hs hold hmem
    simp [cleanup_sensitive_clips, List.mem_filter, sensitiveExpired, hs, hold] at hmem
  · intro r hr hs
    simp [cleanup_sensitive_clips, List.mem_filter, sensitiveExpired, hs, hr]
  · intro r hr hy
    simp [cleanup_sensitive_clips, List.mem_filter, sensitiveExpired, hy, hr]
  · intro r hr
    simp only [cleanup_sensitive_clips, List.mem_filter] at hr
    exact hr.1
  · have h := length_filter_partition (fun r => sensitiveExpired maxAge now r) table
    simp only [cleanup_sensitive_clips]
    omega

/-- Witness for `c5_theorem`: the sensitive, pinned clip aged 100 seconds
is removed by a 60-second expiry. -/
theorem c5_theorem_witness :
    clipSensitivePinned ∉ (cleanup_sensitive_clips 60 100 [clipSensitivePinned]).1 :=
  (c5_theorem 60 100 [clipSensitivePinned]).1 clipSensitivePinned
    (List.mem_singleton_self _) rfl (by decide)

/-! ## C9: the capture pipeline always persists sensitive = false -/

/-- C9 confirmed: `insert_clip` delegates to the underlying insert with
`sensitive` fixed to `false`, and every row of the resulting table either
has `sensitive = false` or carries the sensitive flag of a pre-existing
row — so no capture is ever stored as sensitive at creation time. -/
theorem c9_theorem (now : Int) (nextId : Nat) (content ty hash : Str)
    (tags : Option Str) (table : List Clip) :
    insert_clip now nextId content ty hash tags table
      = insert_clip_with_sensitive now nextId content ty hash tags false table
  ∧ ∀ r ∈ (insert_clip now nextId content ty hash tags table).2,
      r.sensitive = false ∨ ∃ q ∈ table, q.sensitive = r.sensitive := by
  refine ⟨rfl, ?_⟩
  intro r hr
  unfold insert_clip insert_clip_with_sensitive at hr
  cases hfind : table.find? (fun q => q.hash == hash) with
  | some r₀ =>
    rw [hfind] at hr
    simp only at hr
    rcases List.mem_map.mp hr with ⟨q, hq, rfl⟩
    exact Or.inr ⟨q, hq, (conflictUpdate_sensitive now hash q).symm⟩
  | none =>
    rw [hfind] at hr
    simp only [List.mem_append, List.mem_singleton] at hr
    rcases hr with hr | rfl
    · exact Or.inr ⟨r, hr, rfl⟩
    · exact Or.inl rfl

/-- Witness for `c9_theorem`: the row freshly inserted into an empty table
has `sensitive = false`. -/
theorem c9_theorem_witness :
    ((⟨1, "x".toList, "text".toList, "h".toList, 5, false, false, none, none,
        false, none⟩ : Clip).sensitive = false)
  ∨ ∃ q ∈ ([] : List Clip),
      q.sensitive = (⟨1, "x".toList, "text".toList, "h".toList, 5, false, false,
        none, none, false, none⟩ : Clip).sensitive :=
  (c9_theorem 5 1 "x".toList "text".toList "h".toList none []).2 _ (by decide)

/-! ## C6: classifier tags -/

/-- Characters ordered by codepoint compare the same way as their `toNat`
images. -/
theorem char_toNat_le_of_le {a b : Char} (h : a ≤ b) : a.toNat ≤ b.toNat := by
  rw [Char.le_def, UInt32.le_def, BitVec.le_def] at h
  exact h

/-- A character with codepoint at most 102 occupies one UTF-8 byte. -/
theorem utf8Size_of_toNat_le (c : Char) (h : c.toNat ≤ 102) : c.utf8Size = 1 := by
  unfold Char.utf8Size
  simp only
  rw [if_pos]
  rw [UInt32.le_def, BitVec.le_def]
  show c.val.toNat ≤ 127
  exact le_trans h (by norm_num)

/-- ASCII hex digits occupy one UTF-8 byte. -/
theorem utf8Size_of_hex (c : Char) (h : isAsciiHexDigit c = true) : c.utf8Size = 1 := by
  apply utf8Size_of_toNat_le
  simp only [isAsciiHexDigit, Bool.or_eq_true, Bool.and_eq_true,
    decide_eq_true_eq] at h
  rcases h with (h | h) | h <;>
    exact le_trans (char_toNat_le_of_le h.2) (by decide)

/-- On an all-hex-digit string the UTF-8 byte length is the character
count. -/
theorem utf8Len_eq_length_of_hex (l : List Char)
    (h : l.all isAsciiHexDigit = true) : utf8Len l = l.length := by
  induction l with
  | nil => rfl
  | cons c t ih =>
    rw [List.all_cons, Bool.and_eq_true] at h
    rw [utf8Len, List.map_cons, List.sum_cons, utf8Size_of_hex c h.1]
    have ht := ih h.2
    rw [utf8Len] at ht
    rw [ht, List.length_cons]
    omega

/-- The color condition of the classifier is insensitive to whether length
is measured in bytes (as the source does) or characters (as the spec
reads): whenever the all-hex-digits conjunct holds, the string is ASCII and
the two lengths agree. -/
theorem colorCond_eq (content : Str) :
    ("#".toList.isPrefixOf content && (utf8Len content == 4 || utf8Len content == 7)
      && (content.drop 1).all isAsciiHexDigit)
    = ("#".toList.isPrefixOf content
        && (content.length == 4 || content.length == 7)
        && (content.drop 1).all isAsciiHexDigit) := by
  cases content with
  | nil => rfl
  | cons c rest =>
    cases hpre : "#".toList.isPrefixOf (c :: rest) with
    | false => simp only [hpre, Bool.false_and]
    | true =>
      cases hhex : (List.drop 1 (c :: rest)).all isAsciiHexDigit with
      | false => rw [Bool.and_false, Bool.and_false]
      | true =>
        have hc : c = '#' := by
          obtain ⟨t, ht⟩ := List.isPrefixOf_iff_prefix.mp hpre
          have h : '#' :: t = c :: rest := ht
          injection h with h1 h2
          exact h1.symm
        have hlen : utf8Len (c :: rest) = (c :: rest).length := by
          rw [List.drop_one, List.tail_cons] at hhex
          subst hc
          rw [utf8Len, List.map_cons, List.sum_cons]
          have ht := utf8Len_eq_length_of_hex rest hhex
          rw [utf8Len] at ht
          rw [ht, List.length_cons, show ('#').utf8Size = 1 by decide]
          omega
        rw [hlen]

/-- C6 is false on the code as the claim reads: the tab-containing text
`a@b.c<TAB>` contains whitespace, so per the claim the email condition
fails and the classifier should return the absent value; the code checks
only for the ASCII space character and tags it `#email`. -/
theorem c6_counterexample :
    detect_tags tabEmail = some (encodeTags ["#email".toList])
  ∧ tabEmail.any Char.isWhitespace = true := by
  decide

/-- C6 as amended: the classifier returns exactly the tags whose conditions
hold, in check order (url, email, color, code), with the email condition
requiring no ASCII space character (rather than no whitespace); when no
condition holds the result is `none`, not an empty list, and otherwise it
is the JSON encoding of exactly the matching tags. -/
theorem c6_theorem (content : Str) :
    detectTagList content = specTagList content
  ∧ (detect_tags content = none ↔ specTagList content = [])
  ∧ (specTagList content ≠ [] →
      detect_tags content = some (encodeTags (specTagList content))) := by
  have hmain : detectTagList content = specTagList content := by
    rw [detectTagList, specTagList, colorCond_eq]
  refine ⟨hmain, ?_, ?_⟩
  · rw [detect_tags, hmain]
    split_ifs with h
    · simp [h]
    · simp [h]
  · intro hne
    rw [detect_tags, hmain, if_neg hne]

/-- Witness for `c6_theorem`: the email example of the spec. -/
theorem c6_theorem_witness :
    detect_tags "a@b.com".toList = some (encodeTags (specTagList "a@b.com".toList)) :=
  ( c6_theorem "a@b.com".toList).2.2 (by decide)

/-! ## C7: privacy filter order, malformed patterns, terminal suppression -/

/-- C7 confirmed: application-ignore rules are evaluated first — if any
active one matches the foreground window, the capture is suppressed and
nothing is persisted, whatever the regex rules or the regex engine do;
if none matches, the capture is suppressed exactly when some active
content-regex rule compiles and matches the text; a rule whose pattern
fails to compile is skipped — the decision is the same as if the rule were
absent; and a suppressed capture leaves the table unchanged and emits no
row id (so no tags reach the store). -/
theorem c7_theorem (compile : Str → Option (Str → Bool)) (pathExists : Str → Bool)
    (rules : List PrivacyRule) (name title text hash : Str) (now : Int)
    (nextId : Nat) (table : List Clip) :
    ((get_privacy_rules rules).any (appRuleMatches name title) = true →
      enrichPersist compile pathExists now nextId rules (some (name, title)) text
          hash table = (table, none))
  ∧ ((get_privacy_rules rules).any (appRuleMatches name title) = false →
      (enrichText compile pathExists rules (some (name, title)) text = none ↔
        (get_privacy_rules rules).any (regexSuppresses compile text) = true))
  ∧ (∀ (pre post : List PrivacyRule) (r : PrivacyRule) (aw : Option (Str × Str)),
      r.rule_type = "REGEX_MASK".toList → compile r.value = none →
      enrichText compile pathExists (pre ++ r :: post) aw text
        = enrichText compile pathExists (pre ++ post) aw text)
  ∧ (enrichText compile pathExists rules (some (name, title)) text = none →
      enrichPersist compile pathExists now nextId rules (some (name, title)) text
          hash table = (table, none)) := by
  refine ⟨?_, ?_, ?_, ?_⟩
  · intro h
    have hnone : enrichText compile pathExists rules (some (name, title)) text
        = none := by
      simp [enrichText, h]
    simp [enrichPersist, hnone]
  · intro h
    simp only [enrichText, h]
    cases hreg : (get_privacy_rules rules).any (regexSuppresses compile text) <;>
      simp [hreg]
  · intro pre post r aw hrt hcomp
    have happ : ∀ n t, appRuleMatches n t r = false := by
      intro n t
      simp only [appRuleMatches, hrt]
      rfl
    have hreg : regexSuppresses compile text r = false := by
      simp only [regexSuppresses, hrt, hcomp]
      rfl
    cases aw with
    | none =>
      cases hact : r.is_active <;>
        simp [enrichText, get_privacy_rules, List.filter_append, List.filter_cons,
          hact, List.any_append, List.any_cons, hreg]
    | some nt =>
      cases hact : r.is_active <;>
        simp [enrichText, get_privacy_rules, List.filter_append, List.filter_cons,
          hact, List.any_append, List.any_cons, happ, hreg]
  · intro h
    simp [enrichPersist, h]

/-- Witness for `c7_theorem`: an app-ignore rule on `note` suppresses a
capture from `Notepad` — no row is added and no id emitted. -/
theorem c7_theorem_witness :
    enrichPersist literalCompile (fun _ => false) 0 1
      [{ id := 3, rule_type := "APP_IGNORE".toList, value := "note".toList,
         is_active := true }]
      (some ("Notepad".toList, "t".toList)) "x".toList "h".toList []
      = ([], none) :=
  (c7_theorem literalCompile (fun _ => false)
    [{ id := 3, rule_type := "APP_IGNORE".toList, value := "note".toList,
       is_active := true }]
    "Notepad".toList "t".toList "x".toList "h".toList 0 1 []).1 (by decide)

/-! ## C8: query ordering and search filter -/

/-- Any window (`LIMIT`/`OFFSET`) of the sorted rows is itself sorted. -/
theorem sortedWindow_pairwise (rows : List Clip) (limit offset : Nat) :
    List.Pairwise clipOrd (((rows.insertionSort clipOrd).drop offset).take limit) :=
  List.Pairwise.sublist
    ((List.take_sublist _ _).trans (List.drop_sublist _ _))
    (List.sorted_insertionSort clipOrd rows)

/-- C8 is false on the code as the claim reads: searching for `abc`
returns the clip whose content is `ABC`, although `abc` does not occur in
`ABC` (or in its absent tags) as a substring — SQLite `LIKE` matches
ASCII-case-insensitively. -/
theorem c8_counterexample :
    get_clips [clipABC] 10 0 (some "abc".toList) = some [clipABC]
  ∧ containsSub "abc".toList clipABC.content = false
  ∧ clipABC.tags = none := by
  decide

/-- C8 as amended: every row list `get_clips` produces is ordered by
favorite descending, pinned descending, position (NULL as 0) descending,
createdAt descending; for every search term free of the single-quote
character — the terms for which the `format!`-spliced SQL is the intended
query at all — the result, whenever the limit admits the whole table and
the offset is zero, contains exactly the items whose content or tags match
the term under SQLite `LIKE '%term%'` semantics (ASCII-case-insensitive,
`%`/`_` in the term acting as wildcards); a term containing a single quote
escapes the SQL string literal and is outside the model (`none`); and
among three items with favorite false/false/true and otherwise equal
attributes, the favorite item is returned first. -/
theorem c8_theorem (table : List Clip) (limit offset : Nat) (term : Str)
    (search : Option Str) :
    (∀ l, get_clips table limit offset search = some l → List.Pairwise clipOrd l)
  ∧ (∀ l, get_clips table limit offset (some term) = some l →
      term.contains squote = false
      ∧ ∀ x ∈ l, x ∈ table ∧ clipMatchesSearch term x = true)
  ∧ (term.contains squote = false → table.length ≤ limit →
      ∃ l, get_clips table limit 0 (some term) = some l
        ∧ ∀ x, x ∈ l ↔ (x ∈ table ∧ clipMatchesSearch term x = true))
  ∧ (term.contains squote = true →
      get_clips table limit offset (some term) = none)
  ∧ get_clips [clipFav 1 false, clipFav 2 false, clipFav 3 true] 10 0 none
      = some [clipFav 3 true, clipFav 1 false, clipFav 2 false] := by
  refine ⟨?_, ?_, ?_, ?_, by decide⟩
  · intro l hl
    cases search with
    | none =>
      simp only [get_clips, Option.some.injEq] at hl
      subst hl
      exact sortedWindow_pairwise table limit offset
    | some t =>
      simp only [get_clips] at hl
      by_cases hq : t.contains squote = true
      · rw [if_pos hq] at hl
        cases hl
      · rw [if_neg hq] at hl
        injection hl with hl
        subst hl
        exact sortedWindow_pairwise _ limit offset
  · intro l hl
    simp only [get_clips] at hl
    by_cases hq : term.contains squote = true
    · rw [if_pos hq] at hl
      cases hl
    · rw [if_neg hq] at hl
      injection hl with hl
      subst hl
      refine ⟨by cases h : term.contains squote with
        | true => exact absurd h hq
        | false => rfl, ?_⟩
      intro x hx
      have h1 : x ∈ (table.filter (clipMatchesSearch term)).insertionSort clipOrd :=
        ((List.take_sublist _ _).trans (List.drop_sublist _ _)).subset hx
      have h2 : x ∈ table.filter (clipMatchesSearch term) :=
        (List.perm_insertionSort clipOrd _).mem_iff.mp h1
      exact List.mem_filter.mp h2
  · intro hq hlim
    have hlen :
        ((table.filter (clipMatchesSearch term)).insertionSort clipOrd).length
          ≤ limit := by
      rw [(List.perm_insertionSort clipOrd _).length_eq]
      exact le_trans (List.length_filter_le _ _) hlim
    refine ⟨(table.filter (clipMatchesSearch term)).insertionSort clipOrd, ?_, ?_⟩
    · simp only [get_clips]
      rw [if_neg (by rw [hq]; exact Bool.false_ne_true), List.drop_zero,
        List.take_of_length_le hlen]
    · intro x
      rw [(List.perm_insertionSort clipOrd _).mem_iff, List.mem_filter]
  · intro hq
    simp only [get_clips]
    rw [if_pos hq]

/-- Witness for `c8_theorem`: with an ample limit and the quote-free term
`abc`, the query succeeds and returns exactly the matching clips. -/
theorem c8_theorem_witness :
    ∃ l, get_clips [clipABC] 10 0 (some "abc".toList) = some l
      ∧ ∀ x, x ∈ l ↔ (x ∈ [clipABC] ∧ clipMatchesSearch "abc".toList x = true) :=
  (c8_theorem [clipABC] 10 0 "abc".toList none).2.2.1 (by decide) (by decide)

/-! ## C10: empty regex pattern vs empty app-ignore value -/

/-- C10 confirmed: the empty regex pattern compiles (the engine model
returns a matcher) and matches every text, so a single active empty-pattern
`REGEX_MASK` rule suppresses every text capture, whatever the foreground
window; by contrast an active `APP_IGNORE` rule with the empty value is
explicitly skipped (`!val.is_empty()`), never matches any window, and its
presence leaves the enrichment decision identical to having no rules at
all. -/
theorem c10_theorem (text : Str) (aw : Option (Str × Str)) (pathExists : Str → Bool)
    (name title : Str) :
    enrichText literalCompile pathExists [emptyRegexRule] aw text = none
  ∧ literalCompile ([] : Str) = some (fun t => containsSub [] t)
  ∧ containsSub [] text = true
  ∧ appRuleMatches name title emptyAppRule = false
  ∧ (∀ compile : Str → Option (Str → Bool),
      enrichText compile pathExists [emptyAppRule] (some (name, title)) text
        = enrichText compile pathExists [] (some (name, title)) text) := by
  have hc : containsSub [] text = true := by
    simp [containsSub, List.nil_infix]
  refine ⟨?_, rfl, hc, rfl, fun compile => rfl⟩
  cases aw <;>
    simp [enrichText, get_privacy_rules, emptyRegexRule, regexSuppresses,
      literalCompile, appRuleMatches, hc]

/-- Witness for `c10_theorem` at a concrete input: the lone empty-pattern
regex rule suppresses the capture of `hello`. -/
theorem c10_theorem_witness :
    enrichText literalCompile (fun _ => false) [emptyRegexRule] none
      "hello".toList = none :=
  ( c10_theorem "hello".toList none (fun _ => false) [] []).1

end ReClip
